import Mathlib

/-!
Shallow embedding of the Upify "New Order" composition engine
(source: src/NewOrder.jsx) together with theorems checking the
natural-language specification against it.

The embedding models the JavaScript value domain explicitly: a JS
number is NaN, an infinity, or an exact finite value (modelled as a
rational, idealising IEEE-754 doubles as exact arithmetic; no claim
depends on float rounding), and a JS value is undefined, null, a
boolean, a number, a string, or a plain object.  String helpers
(trim, lexicographic comparison, numeric parsing) are implemented
structurally over character lists so that concrete computations
reduce in the kernel.
-/

namespace Upify

/-! ## JavaScript numbers -/

/-- A JavaScript number: NaN, an infinity, or an exact finite value. -/
inductive JSNum where
  | nan
  | posInf
  | negInf
  | finite (q : ℚ)
deriving DecidableEq, Repr

/-- JS `<` on numbers: any comparison with NaN is false. -/
def JSNum.lt : JSNum → JSNum → Bool
  | .nan, _ => false
  | _, .nan => false
  | .negInf, .negInf => false
  | .negInf, _ => true
  | _, .negInf => false
  | .posInf, .posInf => false
  | _, .posInf => true
  | .posInf, _ => false
  | .finite a, .finite b => decide (a < b)

/-- JS `<=` on numbers: any comparison with NaN is false. -/
def JSNum.le : JSNum → JSNum → Bool
  | .nan, _ => false
  | _, .nan => false
  | .negInf, _ => true
  | _, .negInf => false
  | _, .posInf => true
  | .posInf, _ => false
  | .finite a, .finite b => decide (a ≤ b)

/-- JS `Number.isFinite`. -/
def JSNum.isFinite : JSNum → Bool
  | .finite _ => true
  | _ => false

/-- JS `Number.isInteger`. -/
def JSNum.isInteger : JSNum → Bool
  | .finite q => q.den == 1
  | _ => false

/-- JS `String(n)` for a number.  Exact for NaN, the infinities and
integral values (the only values any claim stringifies); the display
of a non-integral finite value is a placeholder for the IEEE-754
shortest-representation algorithm, which no claim exercises. -/
def JSNum.toDisplayString : JSNum → String
  | .nan => "NaN"
  | .posInf => "Infinity"
  | .negInf => "-Infinity"
  | .finite q => if q.den = 1 then toString q.num else toString q.num ++ "/" ++ toString q.den

/-! ## JavaScript values -/

/-- A JavaScript value as used by the component: undefined, null,
boolean, number, string, or a plain object (string-keyed fields).
Arrays do not occur in the modelled code paths. -/
inductive JSVal where
  | undefined
  | null
  | bool (b : Bool)
  | num (n : JSNum)
  | str (s : String)
  | obj (fields : List (String × JSVal))

/-- JS truthiness. -/
def isTruthy : JSVal → Bool
  | .undefined => false
  | .null => false
  | .bool b => b
  | .num .nan => false
  | .num (.finite q) => decide (q ≠ 0)
  | .num _ => true
  | .str s => !(s == "")
  | .obj _ => true

/-! ## Structural string helpers (JS semantics, kernel-reducible) -/

/-- Trim whitespace from both ends of a character list. -/
def jsTrimList (cs : List Char) : List Char :=
  ((cs.dropWhile Char.isWhitespace).reverse.dropWhile Char.isWhitespace).reverse

/-- JS `String.prototype.trim` (modulo the exact Unicode whitespace
class, which no claim exercises beyond ASCII whitespace). -/
def jsTrim (s : String) : String :=
  String.mk (jsTrimList s.data)

/-- Value of a list of decimal digits. -/
def digitsVal (cs : List Char) : ℕ :=
  cs.foldl (fun n c => 10 * n + (c.toNat - 48)) 0

/-- Value of one digit in radix up to 16, if valid. -/
def radixDigitVal (c : Char) : Option ℕ :=
  if c.isDigit then some (c.toNat - 48)
  else if 'a' ≤ c && c ≤ 'f' then some (c.toNat - 87)
  else if 'A' ≤ c && c ≤ 'F' then some (c.toNat - 55)
  else none

/-- Accumulating radix parser: all characters must be valid digits. -/
def radixValAux (radix : ℕ) : List Char → ℕ → Option ℕ
  | [], acc => some acc
  | c :: cs, acc =>
    match radixDigitVal c with
    | some d => if d < radix then radixValAux radix cs (radix * acc + d) else none
    | none => none

/-- Value of a non-empty digit string in the given radix. -/
def radixVal (radix : ℕ) (cs : List Char) : Option ℕ :=
  if cs.isEmpty then none else radixValAux radix cs 0

/-- Parse an unsigned decimal literal `digits [. digits] [exponent]`
or `. digits [exponent]`, requiring full consumption of the input. -/
def parseDecCore (cs : List Char) : Option ℚ :=
  let ipart := cs.takeWhile Char.isDigit
  let r1 := cs.dropWhile Char.isDigit
  let fpart :=
    match r1 with
    | '.' :: r => r.takeWhile Char.isDigit
    | _ => []
  let r2 :=
    match r1 with
    | '.' :: r => r.dropWhile Char.isDigit
    | _ => r1
  if ipart.isEmpty && fpart.isEmpty then none
  else
    let base : ℚ := (digitsVal ipart : ℚ) + (digitsVal fpart : ℚ) / ((10 : ℚ) ^ fpart.length)
    match r2 with
    | [] => some base
    | c :: r3 =>
      if c == 'e' || c == 'E' then
        let esign : ℤ := match r3 with | '-' :: _ => -1 | _ => 1
        let r4 := match r3 with | '+' :: r => r | '-' :: r => r | r => r
        let edig := r4.takeWhile Char.isDigit
        let r5 := r4.dropWhile Char.isDigit
        if edig.isEmpty || !r5.isEmpty then none
        else some (base * (10 : ℚ) ^ (esign * (digitsVal edig : ℤ)))
      else none

/-- JS `ToNumber` applied to a string: trimmed empty input is 0,
`Infinity` forms are infinite, `0x`/`0o`/`0b` prefixes parse in the
corresponding radix, otherwise an optionally signed decimal literal;
anything else is NaN. -/
def strToNum (s : String) : JSNum :=
  match jsTrimList s.data with
  | [] => .finite 0
  | '0' :: 'x' :: rest => (radixVal 16 rest).elim .nan (fun n => .finite n)
  | '0' :: 'X' :: rest => (radixVal 16 rest).elim .nan (fun n => .finite n)
  | '0' :: 'o' :: rest => (radixVal 8 rest).elim .nan (fun n => .finite n)
  | '0' :: 'O' :: rest => (radixVal 8 rest).elim .nan (fun n => .finite n)
  | '0' :: 'b' :: rest => (radixVal 2 rest).elim .nan (fun n => .finite n)
  | '0' :: 'B' :: rest => (radixVal 2 rest).elim .nan (fun n => .finite n)
  | cs =>
    let sgn : ℚ := match cs with | '-' :: _ => -1 | _ => 1
    let body := match cs with | '+' :: r => r | '-' :: r => r | r => r
    if body = "Infinity".data then (if sgn = 1 then .posInf else .negInf)
    else
      match parseDecCore body with
      | some q => .finite (sgn * q)
      | none => .nan

/-- JS `Number(v)`. -/
def toNumber : JSVal → JSNum
  | .undefined => .nan
  | .null => .finite 0
  | .bool b => .finite (if b then 1 else 0)
  | .num n => n
  | .str s => strToNum s
  | .obj _ => .nan

/-- JS `String(v)`; a plain object displays as `[object Object]`. -/
def jsToString : JSVal → String
  | .undefined => "undefined"
  | .null => "null"
  | .bool b => cond b "true" "false"
  | .num n => n.toDisplayString
  | .str s => s
  | .obj _ => "[object Object]"

/-- Property read `v?.k`: a field of an object, otherwise undefined
(optional chaining makes the null/undefined cases undefined too). -/
def getField (v : JSVal) (k : String) : JSVal :=
  match v with
  | .obj fields => (fields.lookup k).getD .undefined
  | _ => .undefined

/-- Lexicographic (code-point) comparison on character lists; the
model of `localeCompare` under the default locale used as a plain
lexicographic comparator, as the spec describes it. -/
def charListLt : List Char → List Char → Bool
  | [], [] => false
  | [], _ :: _ => true
  | _ :: _, [] => false
  | a :: as, b :: bs => if a < b then true else if b < a then false else charListLt as bs

/-- JS `a.localeCompare(b)` modelled as -1 / 0 / 1 by lexicographic
string order. -/
def localeCompareNum (a b : String) : ℚ :=
  if charListLt a.data b.data then -1
  else if a = b then 0
  else 1

/-! ## Data model (src/NewOrder.jsx) -/

/-- One row of the `services` table, with exactly the columns the
component selects; every field is a raw JS value as delivered by the
data source. -/
structure ServiceRecord where
  id : JSVal
  provider_service_id : JSVal
  category : JSVal
  description : JSVal
  provider_rate_per_1000 : JSVal
  min : JSVal
  max : JSVal
  name : JSVal

/-- One entry of the derived category list. -/
structure CategoryEntry where
  key : String
  label : String
  badge : String

/-- The selection-related component state: `selectedCategory`,
`selectedServiceId`, `link`, `quantity`, `readDesc`.  The category
and link states only ever hold strings, and the quantity state only
ever holds a number, so they are typed accordingly; the service id
state starts as `null` and is otherwise set from UI events. -/
structure Selection where
  selectedCategory : String
  selectedServiceId : JSVal
  link : String
  quantity : JSNum
  readDesc : Bool

/-- One `uiMsg` entry as passed to `showMsg(type, text)`. -/
structure UiMsg where
  type : String
  text : JSVal

/-! ## Helpers from the source -/

/-- `safeStr`: a string passes through, every other value becomes
the empty string. -/
def safeStr : JSVal → String
  | .str s => s
  | _ => ""

/-- `normalizeCategory`: trim the category for use as a grouping key. -/
def normalizeCategory (cat : JSVal) : String :=
  jsTrim (safeStr cat)

/-- `extractCategoryBadge`: first space-separated token of the
trimmed label, when it is at most 4 characters long.  (JS measures
length in UTF-16 units; the model counts code points, which agrees
on all inputs any claim uses.) -/
def extractCategoryBadge (displayCategory : JSVal) : String :=
  let s := jsTrim (safeStr displayCategory)
  if s == "" then ""
  else
    let firstToken := String.mk (s.data.takeWhile (fun c => !(c == ' ')))
    if !(firstToken == "") && firstToken.length ≤ 4 then firstToken else ""

/-- `isPositiveIntLike`: `Number.isInteger(x) && x >= 0`, applied to
the quantity state (always a number). -/
def isPositiveIntLike (x : JSNum) : Bool :=
  x.isInteger && JSNum.le (.finite 0) x

/-! ## Derived views -/

/-- `categories` accumulator: sequential scan with a seen-set and an
order-preserving append, exactly as the `useMemo` loop does. -/
def buildCatsAux : List ServiceRecord → List String → List CategoryEntry
  | [], _ => []
  | s :: rest, seen =>
    let cat := normalizeCategory s.category
    if cat = "" then buildCatsAux rest seen
    else if cat ∈ seen then buildCatsAux rest seen
    else ⟨cat, cat, extractCategoryBadge (.str cat)⟩ :: buildCatsAux rest (cat :: seen)

/-- The derived `categories` list. -/
def categories (services : List ServiceRecord) : List CategoryEntry :=
  buildCatsAux services []

/-- The sort comparator used by `servicesInCategory`: numeric
difference when both ids convert to finite numbers, otherwise
`localeCompare` on the stringified ids. -/
def svcCompare (a b : ServiceRecord) : ℚ :=
  match toNumber a.provider_service_id, toNumber b.provider_service_id with
  | .finite av, .finite bv => av - bv
  | _, _ => localeCompareNum (jsToString a.provider_service_id) (jsToString b.provider_service_id)

/-- Comparator turned into a should-precede-or-tie test. -/
def idLE (a b : ServiceRecord) : Bool :=
  decide (svcCompare a b ≤ 0)

/-- Stable insertion of one element by a should-precede test. -/
def insertLe {α : Type} (le : α → α → Bool) (a : α) : List α → List α
  | [] => [a]
  | b :: l => if le a b then a :: b :: l else b :: insertLe le a l

/-- `Array.prototype.sort(cmp)` is specified as a stable sort by the
comparator; it is modelled as a stable insertion sort. -/
def jsSort {α : Type} (le : α → α → Bool) : List α → List α
  | [] => []
  | a :: l => insertLe le a (jsSort le l)

/-- The derived `servicesInCategory` list: filter on the normalized
category, then sort by the comparator. -/
def servicesInCategory (services : List ServiceRecord) (selectedCategory : String) :
    List ServiceRecord :=
  let cat := normalizeCategory (.str selectedCategory)
  if cat = "" then []
  else jsSort idLE (services.filter (fun s => normalizeCategory s.category == cat))

/-- The derived `selectedService`: `null` for a falsy id, otherwise
the first record whose stringified `provider_service_id` equals the
stringified selected id. -/
def selectedService (services : List ServiceRecord) (selectedServiceId : JSVal) :
    Option ServiceRecord :=
  if !(isTruthy selectedServiceId) then none
  else services.find? (fun s => jsToString s.provider_service_id == jsToString selectedServiceId)

/-! ## Cascade resets

The two `useEffect` hooks fire when the category (resp. service id)
state takes a new value; each is modelled as the state transition it
performs on such a change. -/

/-- Effect of changing the selected category: the dependent fields
reset to their defaults. -/
def pickCategory (st : Selection) (catKey : String) : Selection :=
  { st with
    selectedCategory := catKey
    selectedServiceId := .null
    link := ""
    quantity := .finite 0
    readDesc := false }

/-- Effect of changing the selected service id: only the
description-read confirmation resets. -/
def pickService (st : Selection) (sid : JSVal) : Selection :=
  { st with selectedServiceId := sid, readDesc := false }

/-! ## Validator (`validateBeforeSubmit`) -/

def msgCategory : String := "اختر فئة أولًا."

def msgService : String := "اختر خدمة أولًا."

def msgLink : String := "اكتب الرابط."

def msgReadDesc : String := "لازم تؤكد أنك قرأت وصف الخدمة."

def msgIntQuantity : String := "الكمية لازم تكون رقم صحيح (0 أو أكثر)."

def msgPositiveQuantity : String := "الكمية لازم تكون أكبر من 0."

/-- The rule-7 message, interpolating `Number(selectedService.min)`. -/
def msgMinFor (svc : ServiceRecord) : String :=
  "أقل كمية لهذه الخدمة هي " ++ (toNumber svc.min).toDisplayString ++ "."

/-- The rule-8 message, interpolating `Number(selectedService.max)`. -/
def msgMaxFor (svc : ServiceRecord) : String :=
  "أقصى كمية لهذه الخدمة هي " ++ (toNumber svc.max).toDisplayString ++ "."

/-- `validateBeforeSubmit`: the short-circuiting rule chain; an empty
result means the selection passed. -/
def validateBeforeSubmit (services : List ServiceRecord) (st : Selection) : String :=
  if st.selectedCategory = "" then msgCategory
  else
    match selectedService services st.selectedServiceId with
    | none => msgService
    | some svc =>
      if jsTrim st.link = "" then msgLink
      else if !st.readDesc then msgReadDesc
      else if !(isPositiveIntLike st.quantity) then msgIntQuantity
      else if JSNum.le st.quantity (.finite 0) then msgPositiveQuantity
      else if (toNumber svc.min).isFinite && JSNum.lt st.quantity (toNumber svc.min) then
        msgMinFor svc
      else if (toNumber svc.max).isFinite && JSNum.lt (toNumber svc.max) st.quantity then
        msgMaxFor svc
      else ""

/-! The eight rules as stand-alone pass/fail tests, used to state the
precedence properties.  Rules 7 and 8 hold vacuously when no service
resolves (the chain stops at rule 2 before reaching them). -/

def rule1 (st : Selection) : Bool := !(st.selectedCategory == "")

def rule2 (services : List ServiceRecord) (st : Selection) : Bool :=
  (selectedService services st.selectedServiceId).isSome

def rule3 (st : Selection) : Bool := !(jsTrim st.link == "")

def rule4 (st : Selection) : Bool := st.readDesc

def rule5 (st : Selection) : Bool := isPositiveIntLike st.quantity

def rule6 (st : Selection) : Bool := !(JSNum.le st.quantity (.finite 0))

def rule7 (services : List ServiceRecord) (st : Selection) : Bool :=
  match selectedService services st.selectedServiceId with
  | none => true
  | some svc => !((toNumber svc.min).isFinite && JSNum.lt st.quantity (toNumber svc.min))

def rule8 (services : List ServiceRecord) (st : Selection) : Bool :=
  match selectedService services st.selectedServiceId with
  | none => true
  | some svc => !((toNumber svc.max).isFinite && JSNum.lt (toNumber svc.max) st.quantity)

/-! ## Submission client (`createOrder`) -/

/-- Classification of one submission exchange. -/
inductive SubmitOutcome where
  | success
  | failure (text : JSVal)

def fallbackMsg : String := "فشل إنشاء الطلب. راجع الرابط والكمية والخدمة."

/-- Outcome classification from the transport-level success flag and
the decoded body (`none` models a body that failed to parse as JSON,
which the code replaces by the empty object). -/
def classifyResponse (resOk : Bool) (parsed : Option JSVal) : SubmitOutcome :=
  let json := parsed.getD (.obj [])
  if !resOk || !(isTruthy (getField json "ok")) then
    .failure (if isTruthy (getField json "message") then getField json "message"
              else .str fallbackMsg)
  else .success

/-- Behaviour of the one `fetch` exchange: either a transport-level
result with its decoded body, or a thrown exception carrying a
`message` value.  (The session lookup is modelled by the `token`
value below; an exception anywhere inside the `try` block is covered
by the `thrown` case.) -/
inductive FetchResult where
  | ok (resOk : Bool) (parsed : Option JSVal)
  | thrown (errMsg : JSVal)

/-- The ambient inputs of `createOrder` that come from outside the
selection state: the configured API base, the session token, and the
behaviour of the network exchange, should one be issued. -/
structure CreateOrderEnv where
  apiBase : JSVal
  token : JSVal
  fetchResult : FetchResult

/-- Result of one `createOrder` run: the selection state afterwards,
the full sequence of `showMsg` calls in order, and whether a network
request was issued. -/
structure CreateOrderResult where
  sel : Selection
  msgs : List UiMsg
  networkCalled : Bool

def progressMsg : UiMsg := ⟨"info", .str "جارٍ إنشاء الطلب..."⟩

def cfgErrorText : String := "VITE_API_BASE غير موجود في البيئة."

def signInText : String := "لازم تسجل دخول أولًا."

def successText : String := "تم إنشاء الطلب بنجاح ✅"

/-- The network-error message interpolates the thrown message with a
falsy fallback. -/
def netErrText (errMsg : JSVal) : String :=
  "خطأ شبكة: " ++ jsToString (if isTruthy errMsg then errMsg else .str "Unknown error")

/-- `createOrder`: validate, then check configuration, then the
session, then perform and classify the exchange; a successful
submission clears link, quantity and the read confirmation. -/
def createOrder (services : List ServiceRecord) (st : Selection) (env : CreateOrderEnv) :
    CreateOrderResult :=
  let err := validateBeforeSubmit services st
  if err ≠ "" then ⟨st, [⟨"error", .str err⟩], false⟩
  else if !(isTruthy env.apiBase) then
    ⟨st, [progressMsg, ⟨"error", .str cfgErrorText⟩], false⟩
  else if !(isTruthy env.token) then
    ⟨st, [progressMsg, ⟨"error", .str signInText⟩], false⟩
  else
    match env.fetchResult with
    | .thrown m => ⟨st, [progressMsg, ⟨"error", .str (netErrText m)⟩], true⟩
    | .ok resOk parsed =>
      match classifyResponse resOk parsed with
      | .failure t => ⟨st, [progressMsg, ⟨"error", t⟩], true⟩
      | .success =>
        ⟨{ st with link := "", quantity := .finite 0, readDesc := false },
         [progressMsg, ⟨"success", .str successText⟩], true⟩

/-! ## Helper lemmas -/

theorem string_append_ne_empty (a b : String) (h : a ≠ "") : a ++ b ≠ "" := by
  intro hab
  apply h
  have hdata : (a ++ b).data = a.data ++ b.data := rfl
  have : a.data ++ b.data = [] := by
    rw [← hdata, hab]
  rcases List.append_eq_nil.mp this with ⟨ha, _⟩
  cases a
  simp_all

/-- `validateBeforeSubmit` written as the rule chain, with the rule-7
and rule-8 messages read off the resolved service. -/
def minMsgChain (services : List ServiceRecord) (st : Selection) : String :=
  match selectedService services st.selectedServiceId with
  | some svc => msgMinFor svc
  | none => ""

def maxMsgChain (services : List ServiceRecord) (st : Selection) : String :=
  match selectedService services st.selectedServiceId with
  | some svc => msgMaxFor svc
  | none => ""

theorem validate_eq_chain (services : List ServiceRecord) (st : Selection) :
    validateBeforeSubmit services st =
      if rule1 st = false then msgCategory
      else if rule2 services st = false then msgService
      else if rule3 st = false then msgLink
      else if rule4 st = false then msgReadDesc
      else if rule5 st = false then msgIntQuantity
      else if rule6 st = false then msgPositiveQuantity
      else if rule7 services st = false then minMsgChain services st
      else if rule8 services st = false then maxMsgChain services st
      else "" := by
  unfold validateBeforeSubmit rule1 rule2 rule3 rule4 rule5 rule6 rule7 rule8
    minMsgChain maxMsgChain
  cases hsel : selectedService services st.selectedServiceId with
  | none => simp [hsel]
  | some svc =>
    simp only [hsel, Option.isSome_some]
    by_cases h1 : st.selectedCategory = "" <;>
      by_cases h3 : jsTrim st.link = "" <;>
        simp [h1, h3]

theorem msgMinFor_ne_empty (svc : ServiceRecord) : msgMinFor svc ≠ "" := by
  unfold msgMinFor
  apply string_append_ne_empty
  apply string_append_ne_empty
  decide

theorem msgMaxFor_ne_empty (svc : ServiceRecord) : msgMaxFor svc ≠ "" := by
  unfold msgMaxFor
  apply string_append_ne_empty
  apply string_append_ne_empty
  decide

/-! ## Claim theorems -/

/-- C3: changing the selected category resets serviceId to null, link
to the empty string, quantity to 0 and the read confirmation to
false, whatever the prior state; changing the selected service resets
only the read confirmation, leaving category, link and quantity
untouched. -/
theorem claim_C3_cascade_resets (st : Selection) (catKey : String) (sid : JSVal) :
    (pickCategory st catKey).selectedCategory = catKey
    ∧ (pickCategory st catKey).selectedServiceId = .null
    ∧ (pickCategory st catKey).link = ""
    ∧ (pickCategory st catKey).quantity = .finite 0
    ∧ (pickCategory st catKey).readDesc = false
    ∧ (pickService st sid).selectedServiceId = sid
    ∧ (pickService st sid).readDesc = false
    ∧ (pickService st sid).selectedCategory = st.selectedCategory
    ∧ (pickService st sid).link = st.link
    ∧ (pickService st sid).quantity = st.quantity := by
  refine ⟨rfl, rfl, rfl, rfl, rfl, rfl, rfl, rfl, rfl, rfl⟩

/-- C1: the validator evaluates the eight rules in the fixed order
and returns the message of the first violated rule only (empty result
exactly when all eight hold); in particular, when the chain reaches
rule 3 (rules 1 and 2 hold) and rules 3 and 6 are both violated, the
returned message is the rule-3 link message, which differs from the
rule-6 message. -/
theorem claim_C1_validator_precedence (services : List ServiceRecord) (st : Selection) :
    (validateBeforeSubmit services st = "" ↔
      (rule1 st && rule2 services st && rule3 st && rule4 st && rule5 st &&
        rule6 st && rule7 services st && rule8 services st) = true)
    ∧ (rule1 st = false → validateBeforeSubmit services st = msgCategory)
    ∧ (rule1 st = true → rule2 services st = false →
        validateBeforeSubmit services st = msgService)
    ∧ (rule1 st = true → rule2 services st = true → rule3 st = false →
        validateBeforeSubmit services st = msgLink)
    ∧ (rule1 st = true → rule2 services st = true → rule3 st = true → rule4 st = false →
        validateBeforeSubmit services st = msgReadDesc)
    ∧ (rule1 st = true → rule2 services st = true → rule3 st = true → rule4 st = true →
        rule5 st = false → validateBeforeSubmit services st = msgIntQuantity)
    ∧ (rule1 st = true → rule2 services st = true → rule3 st = true → rule4 st = true →
        rule5 st = true → rule6 st = false →
        validateBeforeSubmit services st = msgPositiveQuantity)
    ∧ (∀ svc, selectedService services st.selectedServiceId = some svc →
        rule1 st = true → rule3 st = true → rule4 st = true → rule5 st = true →
        rule6 st = true → rule7 services st = false →
        validateBeforeSubmit services st = msgMinFor svc)
    ∧ (∀ svc, selectedService services st.selectedServiceId = some svc →
        rule1 st = true → rule3 st = true → rule4 st = true → rule5 st = true →
        rule6 st = true → rule7 services st = true → rule8 services st = false →
        validateBeforeSubmit services st = msgMaxFor svc)
    ∧ (rule1 st = true → rule2 services st = true → rule3 st = false → rule6 st = false →
        validateBeforeSubmit services st = msgLink ∧ msgLink ≠ msgPositiveQuantity) := by
  refine ⟨?_, ?_, ?_, ?_, ?_, ?_, ?_, ?_, ?_, ?_⟩
  · rw [validate_eq_chain]
    cases h1 : rule1 st with
    | false => simp [h1, show msgCategory ≠ "" from by decide]
    | true =>
    cases h2 : rule2 services st with
    | false => simp [h1, h2, show msgService ≠ "" from by decide]
    | true =>
    cases h3 : rule3 st with
    | false => simp [h1, h2, h3, show msgLink ≠ "" from by decide]
    | true =>
    cases h4 : rule4 st with
    | false => simp [h1, h2, h3, h4, show msgReadDesc ≠ "" from by decide]
    | true =>
    cases h5 : rule5 st with
    | false => simp [h1, h2, h3, h4, h5, show msgIntQuantity ≠ "" from by decide]
    | true =>
    cases h6 : rule6 st with
    | false => simp [h1, h2, h3, h4, h5, h6, show msgPositiveQuantity ≠ "" from by decide]
    | true =>
    cases h7 : rule7 services st with
    | false =>
      obtain ⟨svc, hsel⟩ := Option.isSome_iff_exists.mp (by simpa [rule2] using h2)
      simp [h1, h2, h3, h4, h5, h6, h7, minMsgChain, hsel, msgMinFor_ne_empty svc]
    | true =>
    cases h8 : rule8 services st with
    | false =>
      obtain ⟨svc, hsel⟩ := Option.isSome_iff_exists.mp (by simpa [rule2] using h2)
      simp [h1, h2, h3, h4, h5, h6, h7, h8, maxMsgChain, hsel, msgMaxFor_ne_empty svc]
    | true => simp [h1, h2, h3, h4, h5, h6, h7, h8]
  · intro h1
    rw [validate_eq_chain]
    simp [h1]
  · intro h1 h2
    rw [validate_eq_chain]
    simp [h1, h2]
  · intro h1 h2 h3
    rw [validate_eq_chain]
    simp [h1, h2, h3]
  · intro h1 h2 h3 h4
    rw [validate_eq_chain]
    simp [h1, h2, h3, h4]
  · intro h1 h2 h3 h4 h5
    rw [validate_eq_chain]
    simp [h1, h2, h3, h4, h5]
  · intro h1 h2 h3 h4 h5 h6
    rw [validate_eq_chain]
    simp [h1, h2, h3, h4, h5, h6]
  · intro svc hsel h1 h3 h4 h5 h6 h7
    have h2 : rule2 services st = true := by simp [rule2, hsel]
    rw [validate_eq_chain]
    simp [h1, h2, h3, h4, h5, h6, h7, minMsgChain, hsel]
  · intro svc hsel h1 h3 h4 h5 h6 h7 h8
    have h2 : rule2 services st = true := by simp [rule2, hsel]
    rw [validate_eq_chain]
    simp [h1, h2, h3, h4, h5, h6, h7, h8, maxMsgChain, hsel]
  · intro h1 h2 h3 _h6
    refine ⟨?_, by decide⟩
    rw [validate_eq_chain]
    simp [h1, h2, h3]

/-- Characterization of `List.find?` as a first-match decomposition. -/
theorem find?_eq_some_split {α : Type} {p : α → Bool} {l : List α} {a : α} :
    l.find? p = some a ↔
      ∃ l1 l2, l = l1 ++ a :: l2 ∧ (∀ x ∈ l1, p x = false) ∧ p a = true := by
  induction l with
  | nil => simp
  | cons b t ih =>
    by_cases hb : p b
    · simp only [List.find?_cons, hb]
      constructor
      · intro h
        obtain rfl : b = a := by simpa using h
        exact ⟨[], t, rfl, by simp, hb⟩
      · rintro ⟨l1, l2, heq, hl1, ha⟩
        cases l1 with
        | nil =>
          obtain ⟨rfl, rfl⟩ : b = a ∧ t = l2 := by simpa using heq
          rfl
        | cons c l1t =>
          obtain ⟨rfl, -⟩ : c = b ∧ t = l1t ++ a :: l2 := by
            constructor
            · exact (List.cons.injEq _ _ _ _ ▸ heq).1.symm ▸ rfl
            · exact (List.cons.injEq _ _ _ _ ▸ heq).2
          exact absurd hb (by simp [hl1 c (by simp)])
    · simp only [List.find?_cons, Bool.not_eq_true] at hb ⊢
      rw [hb]
      rw [ih]
      constructor
      · rintro ⟨l1, l2, rfl, hl1, ha⟩
        exact ⟨b :: l1, l2, rfl, by
          intro x hx
          rcases List.mem_cons.mp hx with rfl | hx
          · exact hb
          · exact hl1 x hx, ha⟩
      · rintro ⟨l1, l2, heq, hl1, ha⟩
        cases l1 with
        | nil =>
          obtain ⟨rfl, rfl⟩ : b = a ∧ t = l2 := by simpa using heq
          exact absurd ha (by simp [hb])
        | cons c l1t =>
          obtain ⟨-, ht⟩ : b = c ∧ t = l1t ++ a :: l2 := by simpa using heq
          exact ⟨l1t, l2, ht, fun x hx => hl1 x (by simp [hx]), ha⟩

/-! ## Concrete inputs used by witnesses and counterexamples -/

/-- A plain service with numeric id 7 in category `Cat`, no bounds. -/
def svcW : ServiceRecord :=
  ⟨.null, .num (.finite 7), .str "Cat", .null, .null, .undefined, .undefined, .null⟩

/-- A selection whose trimmed link is empty and whose quantity is 0:
rules 3 and 6 are violated simultaneously. -/
def stW : Selection := ⟨"Cat", .str "7", "   ", .finite 0, true⟩

/-- Witness for C1: on a selection violating rules 3 and 6 at once,
the validator surfaces the rule-3 link message, not the rule-6 one. -/
theorem claim_C1_validator_precedence_witness :
    validateBeforeSubmit [svcW] stW = msgLink ∧ msgLink ≠ msgPositiveQuantity :=
  (claim_C1_validator_precedence [svcW] stW).2.2.2.2.2.2.2.2.2
    (by decide) (by decide) (by decide) (by decide)

/-- A service whose `min` column is absent from the record (so
undefined) and whose `max` column holds the SQL NULL delivered for a
declared-but-empty bound. -/
def svcNullMax : ServiceRecord :=
  ⟨.null, .num (.finite 7), .str "Cat", .null, .null, .undefined, .null, .null⟩

/-- A fully valid selection of that service with quantity 1. -/
def stQty1 : Selection := ⟨"Cat", .str "7", "http://x", .finite 1, true⟩

/-- C2 (code bug): a selection passing rules 1 through 6 of a service
whose `max` is `null` — a value the claim explicitly lists as an
absent bound — is REJECTED: `Number(null)` is the finite 0, so the
rule-8 bound is enforced as 0 and the quantity 1 draws the
maximum-quantity message, contradicting the claim and the code
comment "Optional min/max validation if exists". -/
theorem claim_C2_null_max_bound_bug :
    rule1 stQty1 = true ∧ rule2 [svcNullMax] stQty1 = true ∧ rule3 stQty1 = true
    ∧ rule4 stQty1 = true ∧ rule5 stQty1 = true ∧ rule6 stQty1 = true
    ∧ (toNumber svcNullMax.min).isFinite = false
    ∧ svcNullMax.max = JSVal.null
    ∧ toNumber svcNullMax.max = .finite 0
    ∧ validateBeforeSubmit [svcNullMax] stQty1 = "أقصى كمية لهذه الخدمة هي 0."
    ∧ ("أقصى كمية لهذه الخدمة هي 0." : String) ≠ "" := by
  refine ⟨by decide, by decide, by decide, by decide, by decide, by decide,
    by decide, rfl, rfl, by decide, by decide⟩

/-- A record whose category label has surrounding whitespace. -/
def svcPadded : ServiceRecord :=
  ⟨.null, .num (.finite 1), .str " X ", .null, .null, .null, .null, .null⟩

/-- C4 (code bug): the category entry built from a record whose
category has surrounding whitespace carries the TRIMMED string as
both key and label; the original untrimmed display string is lost,
although the code comment says to keep the original for display. -/
theorem claim_C4_label_is_trimmed_bug :
    (categories [svcPadded]).map (fun c => (c.key, c.label)) = [("X", "X")]
    ∧ svcPadded.category = JSVal.str " X "
    ∧ (" X " : String) ≠ "X" := by
  refine ⟨by decide, rfl, by decide⟩

/-- C10 (amended): any falsy selected serviceId (null, the empty
string, the number 0, or any other falsy value) yields no active
service, even when some record's stringified id equals the
stringified selection; for a truthy serviceId the active service is
the first record whose stringified `provider_service_id` equals the
stringified serviceId, or none when no record matches. -/
theorem claim_C10_selected_service (services : List ServiceRecord) (sid : JSVal) :
    (isTruthy sid = false → selectedService services sid = none)
    ∧ selectedService services (.num (.finite 0)) = none
    ∧ selectedService services .null = none
    ∧ selectedService services (.str "") = none
    ∧ (isTruthy sid = true →
        ((selectedService services sid = none ↔
            ∀ r ∈ services, jsToString r.provider_service_id ≠ jsToString sid)
         ∧ (∀ r, selectedService services sid = some r →
              r ∈ services ∧ jsToString r.provider_service_id = jsToString sid
              ∧ ∃ l1 l2, services = l1 ++ r :: l2
                  ∧ ∀ x ∈ l1, jsToString x.provider_service_id ≠ jsToString sid))) := by
  refine ⟨?_, ?_, ?_, ?_, ?_⟩
  · intro h
    simp [selectedService, h]
  · simp [selectedService, isTruthy]
  · simp [selectedService, isTruthy]
  · simp [selectedService, isTruthy]
  · intro h
    constructor
    · rw [show selectedService services sid =
          services.find? (fun s => jsToString s.provider_service_id == jsToString sid) from by
            simp [selectedService, h]]
      rw [List.find?_eq_none]
      simp
    · intro r hr
      rw [show selectedService services sid =
          services.find? (fun s => jsToString s.provider_service_id == jsToString sid) from by
            simp [selectedService, h]] at hr
      obtain ⟨l1, l2, heq, hl1, ha⟩ := find?_eq_some_split.mp hr
      refine ⟨by simp [heq], by simpa using ha, l1, l2, heq, ?_⟩
      intro x hx
      simpa using hl1 x hx

/-- A catalog record whose identifier is the number 0. -/
def svcZero : ServiceRecord :=
  ⟨.null, .num (.finite 0), .str "Z", .null, .null, .null, .null, .null⟩

/-- C10 counterexample: a record with identifier 0 CAN become the
active service — through the truthy, non-empty string "0" (which is
exactly what the service buttons pass) — refuting the claim that
such a record can never become the active service. -/
theorem claim_C10_counterexample :
    selectedService [svcZero] (.str "0") = some svcZero
    ∧ isTruthy (.str "0") = true
    ∧ jsToString svcZero.provider_service_id = "0" := by
  refine ⟨rfl, by decide, by decide⟩

/-- Witness for C10 on concrete inputs: the number 0 resolves no
service even though a record stringifies to "0", and for a truthy
unmatched id the none-characterization holds. -/
theorem claim_C10_selected_service_witness :
    selectedService [svcZero] (.num (.finite 0)) = none
    ∧ (selectedService [svcZero] (.str "Q") = none ↔
        ∀ r ∈ [svcZero], jsToString r.provider_service_id ≠ jsToString (.str "Q")) :=
  ⟨(claim_C10_selected_service [svcZero] (.num (.finite 0))).1 (by decide),
   ((claim_C10_selected_service [svcZero] (.str "Q")).2.2.2.2 (by decide)).1⟩

/-- C6 (amended): the outcome is success iff the transport status is
a success AND the decoded body's `ok` field is truthy (an unparsable
body counts as the empty object); on a non-success outcome the error
text is the body's `message` field when that field is present and
TRUTHY, and the fixed generic fallback otherwise — in particular a
present-but-falsy message (such as the empty string) falls back. -/
theorem claim_C6_outcome_classification (resOk : Bool) (parsed : Option JSVal) :
    (classifyResponse resOk parsed = .success ↔
      (resOk = true ∧ isTruthy (getField (parsed.getD (.obj [])) "ok") = true))
    ∧ classifyResponse resOk none = classifyResponse resOk (some (.obj []))
    ∧ (∀ t, classifyResponse resOk parsed = .failure t →
        t = if isTruthy (getField (parsed.getD (.obj [])) "message") = true
            then getField (parsed.getD (.obj [])) "message"
            else .str fallbackMsg) := by
  refine ⟨?_, rfl, ?_⟩
  · unfold classifyResponse
    by_cases hr : resOk <;>
      by_cases hok : isTruthy (getField (parsed.getD (.obj [])) "ok") <;>
        simp [hr, hok]
  · intro t ht
    unfold classifyResponse at ht
    by_cases hr : resOk <;>
      by_cases hok : isTruthy (getField (parsed.getD (.obj [])) "ok") <;>
        simp [hr, hok] at ht <;>
          by_cases hm : isTruthy (getField (parsed.getD (.obj [])) "message") <;>
            (simp [hm] at ht ⊢; exact ht.symm)

/-- C6 counterexample: a non-success response whose decoded body has
a PRESENT but empty `message` string surfaces the generic fallback
rather than the message field, refuting "equals the body's message
field when present". -/
theorem claim_C6_counterexample :
    classifyResponse false (some (.obj [("ok", .bool false), ("message", .str "")])) =
      .failure (.str fallbackMsg)
    ∧ getField (.obj [("ok", .bool false), ("message", .str "")]) "message" = .str ""
    ∧ JSVal.str fallbackMsg ≠ JSVal.str "" := by
  refine ⟨rfl, rfl, ?_⟩
  intro h
  have hs : fallbackMsg = "" := by injection h
  exact absurd hs (by decide)

/-- Witness for C6 at the spec's own example body: a decodable
failure body with message "bad link" surfaces exactly "bad link". -/
theorem claim_C6_outcome_classification_witness :
    JSVal.str "bad link" =
      (if isTruthy (getField ((some (JSVal.obj
            [("ok", .bool false), ("message", .str "bad link")])).getD (.obj [])) "message") = true
       then getField ((some (JSVal.obj
            [("ok", .bool false), ("message", .str "bad link")])).getD (.obj [])) "message"
       else .str fallbackMsg) :=
  (claim_C6_outcome_classification false
      (some (.obj [("ok", .bool false), ("message", .str "bad link")]))).2.2
    (.str "bad link") rfl

/-- C7: a successful submission clears link, quantity and the read
confirmation while preserving the selected category and service id;
every non-success outcome (validation, configuration, auth, server
rejection, or network fault) leaves the whole selection unchanged. -/
theorem claim_C7_submission_frame (services : List ServiceRecord) (st : Selection)
    (env : CreateOrderEnv) :
    ((createOrder services st env).msgs.getLast?.map UiMsg.type = some "success" →
      (createOrder services st env).sel.link = ""
      ∧ (createOrder services st env).sel.quantity = .finite 0
      ∧ (createOrder services st env).sel.readDesc = false
      ∧ (createOrder services st env).sel.selectedCategory = st.selectedCategory
      ∧ (createOrder services st env).sel.selectedServiceId = st.selectedServiceId)
    ∧ ((createOrder services st env).msgs.getLast?.map UiMsg.type ≠ some "success" →
      (createOrder services st env).sel = st) := by
  unfold createOrder
  by_cases herr : validateBeforeSubmit services st = "" <;>
    by_cases hbase : isTruthy env.apiBase <;>
      by_cases htok : isTruthy env.token <;>
        simp [herr, hbase, htok]
  all_goals cases hf : env.fetchResult with
  | thrown m => simp
  | ok resOk parsed =>
    cases hc : classifyResponse resOk parsed with
    | failure t => simp [hc]
    | success => simp [hc]

/-- C8: no network request is issued unless the validator passes, the
API base is configured (truthy) and a session credential is
available (truthy), checked in that order; each early stop leaves the
selection unchanged and emits the corresponding error text as the
final message. -/
theorem claim_C8_submission_gating (services : List ServiceRecord) (st : Selection)
    (env : CreateOrderEnv) :
    ((createOrder services st env).networkCalled = true ↔
      (validateBeforeSubmit services st = "" ∧ isTruthy env.apiBase = true
        ∧ isTruthy env.token = true))
    ∧ (validateBeforeSubmit services st ≠ "" →
        createOrder services st env =
          ⟨st, [⟨"error", .str (validateBeforeSubmit services st)⟩], false⟩)
    ∧ (validateBeforeSubmit services st = "" → isTruthy env.apiBase = false →
        createOrder services st env = ⟨st, [progressMsg, ⟨"error", .str cfgErrorText⟩], false⟩)
    ∧ (validateBeforeSubmit services st = "" → isTruthy env.apiBase = true →
        isTruthy env.token = false →
        createOrder services st env = ⟨st, [progressMsg, ⟨"error", .str signInText⟩], false⟩) := by
  unfold createOrder
  by_cases herr : validateBeforeSubmit services st = "" <;>
    by_cases hbase : isTruthy env.apiBase <;>
      by_cases htok : isTruthy env.token <;>
        simp [herr, hbase, htok]
  all_goals cases hf : env.fetchResult with
  | thrown m => simp
  | ok resOk parsed =>
    cases hc : classifyResponse resOk parsed with
    | failure t => simp [hc]
    | success => simp [hc]

/-- An environment where everything succeeds and the server accepts. -/
def envOkSuccess : CreateOrderEnv :=
  ⟨.str "https://api.example", .str "tok", .ok true (some (.obj [("ok", .bool true)]))⟩

/-- An environment with no configured API base. -/
def envNoBase : CreateOrderEnv := ⟨.undefined, .str "tok", .ok true none⟩

/-- Witness for C7: a concrete successful submission resets link,
quantity and confirmation and keeps the category and service id. -/
theorem claim_C7_submission_frame_witness :
    (createOrder [svcW] stQty1 envOkSuccess).sel.link = ""
    ∧ (createOrder [svcW] stQty1 envOkSuccess).sel.quantity = .finite 0
    ∧ (createOrder [svcW] stQty1 envOkSuccess).sel.readDesc = false
    ∧ (createOrder [svcW] stQty1 envOkSuccess).sel.selectedCategory = stQty1.selectedCategory
    ∧ (createOrder [svcW] stQty1 envOkSuccess).sel.selectedServiceId = stQty1.selectedServiceId :=
  (claim_C7_submission_frame [svcW] stQty1 envOkSuccess).1 rfl

/-- Witness for C8: with no API base configured, a valid selection
produces the configuration error and no network call. -/
theorem claim_C8_submission_gating_witness :
    createOrder [svcW] stQty1 envNoBase =
      ⟨stQty1, [progressMsg, ⟨"error", .str cfgErrorText⟩], false⟩ :=
  (claim_C8_submission_gating [svcW] stQty1 envNoBase).2.2.1 rfl rfl

/-! ## Sorting lemmas -/

theorem mem_insertLe {α : Type} (le : α → α → Bool) (a x : α) (l : List α) :
    x ∈ insertLe le a l ↔ x = a ∨ x ∈ l := by
  induction l with
  | nil => simp [insertLe]
  | cons b t ih =>
    unfold insertLe
    by_cases hab : le a b
    · simp [hab]
    · simp only [if_neg hab, List.mem_cons, ih]
      tauto

theorem insertLe_perm {α : Type} (le : α → α → Bool) (a : α) (l : List α) :
    (insertLe le a l).Perm (a :: l) := by
  induction l with
  | nil => simp [insertLe]
  | cons b t ih =>
    unfold insertLe
    by_cases hab : le a b
    · simp [hab]
    · rw [if_neg hab]
      exact (ih.cons b).trans (List.Perm.swap a b t)

theorem jsSort_perm {α : Type} (le : α → α → Bool) (l : List α) :
    (jsSort le l).Perm l := by
  induction l with
  | nil => simp [jsSort]
  | cons a t ih =>
    unfold jsSort
    exact (insertLe_perm le a (jsSort le t)).trans (ih.cons a)

theorem mem_jsSort {α : Type} (le : α → α → Bool) (l : List α) (x : α) :
    x ∈ jsSort le l ↔ x ∈ l :=
  (jsSort_perm le l).mem_iff

theorem pairwise_insertLe {α : Type} {le : α → α → Bool} {a : α} {l : List α}
    (hl : l.Pairwise (fun x y => le x y = true))
    (htot : ∀ x ∈ l, le a x = true ∨ le x a = true)
    (htrans : ∀ x y z, (x = a ∨ x ∈ l) → (y = a ∨ y ∈ l) → (z = a ∨ z ∈ l) →
        le x y = true → le y z = true → le x z = true) :
    (insertLe le a l).Pairwise (fun x y => le x y = true) := by
  induction l with
  | nil => simp [insertLe]
  | cons b t ih =>
    have hlt := (List.pairwise_cons.mp hl).2
    have hbt := (List.pairwise_cons.mp hl).1
    unfold insertLe
    by_cases hab : le a b
    · rw [if_pos hab, List.pairwise_cons]
      refine ⟨?_, hl⟩
      intro x hx
      rcases List.mem_cons.mp hx with rfl | hx
      · exact hab
      · exact htrans a b x (Or.inl rfl) (Or.inr (by simp)) (Or.inr (by simp [hx]))
          hab (hbt x hx)
    · rw [if_neg hab, List.pairwise_cons]
      constructor
      · intro y hy
        rcases (mem_insertLe le a y t).mp hy with rfl | hy2
        · rcases htot b (by simp) with h | h
          · exact absurd h hab
          · exact h
        · exact hbt y hy2
      · refine ih hlt (fun y hy => htot y (by simp [hy])) ?_
        intro u v w hu hv hw
        refine htrans u v w ?_ ?_ ?_
        · exact hu.imp id (fun h => List.mem_cons_of_mem b h)
        · exact hv.imp id (fun h => List.mem_cons_of_mem b h)
        · exact hw.imp id (fun h => List.mem_cons_of_mem b h)

theorem pairwise_jsSort {α : Type} {le : α → α → Bool} {l : List α}
    (htot : ∀ x ∈ l, ∀ y ∈ l, le x y = true ∨ le y x = true)
    (htrans : ∀ x ∈ l, ∀ y ∈ l, ∀ z ∈ l, le x y = true → le y z = true → le x z = true) :
    (jsSort le l).Pairwise (fun x y => le x y = true) := by
  induction l with
  | nil => simp [jsSort]
  | cons a t ih =>
    unfold jsSort
    have hsub : ∀ x ∈ jsSort le t, x ∈ t := fun x hx => (mem_jsSort le t x).mp hx
    refine pairwise_insertLe ?_ ?_ ?_
    · exact ih (fun x hx y hy => htot x (by simp [hx]) y (by simp [hy]))
        (fun x hx y hy z hz => htrans x (by simp [hx]) y (by simp [hy]) z (by simp [hz]))
    · intro x hx
      exact htot a (by simp) x (by simp [hsub x hx])
    · intro x y z hx hy hz
      have mx : x ∈ a :: t := by
        rcases hx with h | h
        · rw [h]
          exact List.mem_cons_self _ _
        · exact List.mem_cons_of_mem _ (hsub x h)
      have my : y ∈ a :: t := by
        rcases hy with h | h
        · rw [h]
          exact List.mem_cons_self _ _
        · exact List.mem_cons_of_mem _ (hsub y h)
      have mz : z ∈ a :: t := by
        rcases hz with h | h
        · rw [h]
          exact List.mem_cons_self _ _
        · exact List.mem_cons_of_mem _ (hsub z h)
      exact htrans x mx y my z mz

/-! ## Comparator facts -/

theorem charListLt_irrefl : ∀ cs, charListLt cs cs = false
  | [] => rfl
  | c :: cs => by simp [charListLt, charListLt_irrefl cs]

theorem charListLt_trichotomy : ∀ as bs, charListLt as bs = true ∨ as = bs ∨ charListLt bs as = true
  | [], [] => Or.inr (Or.inl rfl)
  | [], _ :: _ => Or.inl rfl
  | _ :: _, [] => Or.inr (Or.inr rfl)
  | a :: as, b :: bs => by
    rcases lt_trichotomy a b with h | h | h
    · exact Or.inl (by simp [charListLt, h])
    · subst h
      rcases charListLt_trichotomy as bs with h2 | h2 | h2
      · exact Or.inl (by simp [charListLt, lt_irrefl, h2])
      · exact Or.inr (Or.inl (by rw [h2]))
      · exact Or.inr (Or.inr (by simp [charListLt, lt_irrefl, h2]))
    · exact Or.inr (Or.inr (by simp [charListLt, h, not_lt_of_gt h]))

theorem string_eq_of_data_eq {a b : String} (h : a.data = b.data) : a = b :=
  congrArg String.mk h

theorem idLE_refl (a : ServiceRecord) : idLE a a = true := by
  unfold idLE svcCompare
  cases toNumber a.provider_service_id with
  | finite q => simp
  | nan => simp [localeCompareNum, charListLt_irrefl]
  | posInf => simp [localeCompareNum, charListLt_irrefl]
  | negInf => simp [localeCompareNum, charListLt_irrefl]

theorem localeCompareNum_nonpos_or (a b : String) :
    localeCompareNum a b ≤ 0 ∨ localeCompareNum b a ≤ 0 := by
  rcases charListLt_trichotomy a.data b.data with h | h | h
  · left
    norm_num [localeCompareNum, h]
  · left
    have hab : a = b := string_eq_of_data_eq h
    subst hab
    norm_num [localeCompareNum, charListLt_irrefl]
  · right
    norm_num [localeCompareNum, h]

theorem locale_total_goal (a b : ServiceRecord) :
    decide (localeCompareNum (jsToString a.provider_service_id)
        (jsToString b.provider_service_id) ≤ 0) = true ∨
      decide (localeCompareNum (jsToString b.provider_service_id)
        (jsToString a.provider_service_id) ≤ 0) = true := by
  rcases localeCompareNum_nonpos_or (jsToString a.provider_service_id)
      (jsToString b.provider_service_id) with h | h
  · left
    simpa using h
  · right
    simpa using h

theorem idLE_total (a b : ServiceRecord) : idLE a b = true ∨ idLE b a = true := by
  unfold idLE svcCompare
  cases ha : toNumber a.provider_service_id with
  | finite qa =>
    cases hb : toNumber b.provider_service_id with
    | finite qb =>
      rcases le_total qa qb with h | h
      · left
        simp only [decide_eq_true_eq]
        linarith
      · right
        simp only [decide_eq_true_eq]
        linarith
    | nan => exact locale_total_goal a b
    | posInf => exact locale_total_goal a b
    | negInf => exact locale_total_goal a b
  | nan => cases hb : toNumber b.provider_service_id <;> exact locale_total_goal a b
  | posInf => cases hb : toNumber b.provider_service_id <;> exact locale_total_goal a b
  | negInf => cases hb : toNumber b.provider_service_id <;> exact locale_total_goal a b

/-! ## Category-list lemmas -/

theorem mem_keys_buildCatsAux {l : List ServiceRecord} {seen : List String} {k : String} :
    k ∈ (buildCatsAux l seen).map CategoryEntry.key ↔
      (k ∉ seen ∧ k ≠ "" ∧ ∃ r ∈ l, normalizeCategory r.category = k) := by
  induction l generalizing seen with
  | nil => simp [buildCatsAux]
  | cons s t ih =>
    unfold buildCatsAux
    by_cases h0 : normalizeCategory s.category = ""
    · rw [if_pos h0, ih]
      simp only [List.mem_cons]
      constructor
      · rintro ⟨h1, h2, r, hr, hk⟩
        exact ⟨h1, h2, r, Or.inr hr, hk⟩
      · rintro ⟨h1, h2, r, hr, hk⟩
        rcases hr with heq | hr2
        · exact absurd (by rw [← hk, heq, h0]) h2
        · exact ⟨h1, h2, r, hr2, hk⟩
    · rw [if_neg h0]
      by_cases hseen : normalizeCategory s.category ∈ seen
      · rw [if_pos hseen, ih]
        simp only [List.mem_cons]
        constructor
        · rintro ⟨h1, h2, r, hr, hk⟩
          exact ⟨h1, h2, r, Or.inr hr, hk⟩
        · rintro ⟨h1, h2, r, hr, hk⟩
          rcases hr with heq | hr2
          · exact absurd (show k ∈ seen by rw [← hk, heq]; exact hseen) h1
          · exact ⟨h1, h2, r, hr2, hk⟩
      · rw [if_neg hseen]
        simp only [List.map_cons, List.mem_cons]
        rw [ih]
        simp only [List.mem_cons]
        constructor
        · rintro (hk | ⟨h1, h2, r, hr, hk⟩)
          · refine ⟨?_, by rw [hk]; exact h0, s, Or.inl rfl, hk.symm⟩
            rw [hk]
            intro hc
            exact hseen hc
          · refine ⟨?_, h2, r, Or.inr hr, hk⟩
            intro hc
            exact h1 (Or.inr hc)
        · rintro ⟨h1, h2, r, hr, hk⟩
          rcases hr with heq | hr2
          · exact Or.inl (by rw [← hk, heq])
          · by_cases hkc : k = normalizeCategory s.category
            · exact Or.inl hkc
            · refine Or.inr ⟨?_, h2, r, hr2, hk⟩
              intro hc
              rcases hc with hc2 | hc2
              · exact hkc hc2
              · exact h1 hc2

theorem nodup_keys_buildCatsAux (l : List ServiceRecord) (seen : List String) :
    ((buildCatsAux l seen).map CategoryEntry.key).Nodup := by
  induction l generalizing seen with
  | nil => simp [buildCatsAux]
  | cons s t ih =>
    unfold buildCatsAux
    by_cases h0 : normalizeCategory s.category = ""
    · rw [if_pos h0]
      exact ih seen
    · rw [if_neg h0]
      by_cases hseen : normalizeCategory s.category ∈ seen
      · rw [if_pos hseen]
        exact ih seen
      · rw [if_neg hseen]
        simp only [List.map_cons, List.nodup_cons]
        refine ⟨?_, ih _⟩
        intro hc
        exact (mem_keys_buildCatsAux.mp hc).1 (by simp)

theorem key_facts_of_mem_buildCatsAux {l : List ServiceRecord} {seen : List String}
    {c : CategoryEntry} (hc : c ∈ buildCatsAux l seen) :
    c.key ∉ seen ∧ c.key ≠ "" ∧ ∃ r ∈ l, normalizeCategory r.category = c.key :=
  mem_keys_buildCatsAux.mp (List.mem_map_of_mem CategoryEntry.key hc)

theorem pairwise_firstIdx_buildCatsAux (l : List ServiceRecord) (seen : List String) :
    (buildCatsAux l seen).Pairwise (fun a b =>
      l.findIdx (fun r => normalizeCategory r.category == a.key) <
      l.findIdx (fun r => normalizeCategory r.category == b.key)) := by
  induction l generalizing seen with
  | nil => simp [buildCatsAux]
  | cons s t ih =>
    unfold buildCatsAux
    by_cases h0 : normalizeCategory s.category = ""
    · rw [if_pos h0]
      refine (ih seen).imp_of_mem ?_
      intro a b ha hb hr
      have hka : ¬(normalizeCategory s.category == a.key) = true := by
        have := (key_facts_of_mem_buildCatsAux ha).2.1
        simp [h0]
        exact fun hc => this hc.symm
      have hkb : ¬(normalizeCategory s.category == b.key) = true := by
        have := (key_facts_of_mem_buildCatsAux hb).2.1
        simp [h0]
        exact fun hc => this hc.symm
      rw [List.findIdx_cons, List.findIdx_cons]
      simp only [Bool.not_eq_true] at hka hkb
      rw [hka, hkb]
      simpa using hr
    · rw [if_neg h0]
      by_cases hseen : normalizeCategory s.category ∈ seen
      · rw [if_pos hseen]
        refine (ih seen).imp_of_mem ?_
        intro a b ha hb hr
        have hka : ¬(normalizeCategory s.category == a.key) = true := by
          have := (key_facts_of_mem_buildCatsAux ha).1
          simp only [beq_iff_eq]
          exact fun hc => this (hc ▸ hseen)
        have hkb : ¬(normalizeCategory s.category == b.key) = true := by
          have := (key_facts_of_mem_buildCatsAux hb).1
          simp only [beq_iff_eq]
          exact fun hc => this (hc ▸ hseen)
        rw [List.findIdx_cons, List.findIdx_cons]
        simp only [Bool.not_eq_true] at hka hkb
        rw [hka, hkb]
        simpa using hr
      · rw [if_neg hseen, List.pairwise_cons]
        constructor
        · intro b hb
          have hkb : ¬(normalizeCategory s.category == b.key) = true := by
            have := (key_facts_of_mem_buildCatsAux hb).1
            simp only [beq_iff_eq]
            exact fun hc => this (by simp [← hc])
          rw [List.findIdx_cons, List.findIdx_cons]
          simp only [Bool.not_eq_true] at hkb
          rw [hkb]
          simp
        · refine (ih _).imp_of_mem ?_
          intro a b ha hb hr
          have hka : ¬(normalizeCategory s.category == a.key) = true := by
            have := (key_facts_of_mem_buildCatsAux ha).1
            simp only [beq_iff_eq]
            exact fun hc => this (by simp [← hc])
          have hkb : ¬(normalizeCategory s.category == b.key) = true := by
            have := (key_facts_of_mem_buildCatsAux hb).1
            simp only [beq_iff_eq]
            exact fun hc => this (by simp [← hc])
          rw [List.findIdx_cons, List.findIdx_cons]
          simp only [Bool.not_eq_true] at hka hkb
          rw [hka, hkb]
          simpa using hr

theorem findIdx_of_split {α : Type} {p : α → Bool} {l1 l2 : List α} {a : α}
    (hl1 : ∀ x ∈ l1, p x = false) (ha : p a = true) :
    (l1 ++ a :: l2).findIdx p = l1.length := by
  induction l1 with
  | nil => simp [List.findIdx_cons, ha]
  | cons c t ih =>
    rw [List.cons_append, List.findIdx_cons]
    have hc : p c = false := hl1 c (by simp)
    rw [hc]
    simp only [cond_false, List.length_cons]
    rw [ih (fun x hx => hl1 x (by simp [hx]))]

theorem get_split {α : Type} (l1 l2 : List α) (a : α)
    (h : l1.length < (l1 ++ a :: l2).length) :
    (l1 ++ a :: l2).get ⟨l1.length, h⟩ = a := by
  rw [List.get_eq_getElem, List.getElem_append_right (le_refl l1.length)]
  simp

theorem get_split_of_eq {α : Type} {l l1 l2 : List α} {a : α}
    (heq : l = l1 ++ a :: l2) (h : l1.length < l.length) :
    l.get ⟨l1.length, h⟩ = a := by
  subst heq
  exact get_split l1 l2 a h

/-- Under a sorted input, the first record matching a key is a
minimum-id record among all records with that key. -/
theorem first_match_min {records : List ServiceRecord} {k : String} {r0 : ServiceRecord}
    (hsorted : records.Pairwise (fun a b => idLE a b = true))
    (hfind : records.find? (fun r => normalizeCategory r.category == k) = some r0) :
    normalizeCategory r0.category = k
    ∧ ∀ r ∈ records, normalizeCategory r.category = k → idLE r0 r = true := by
  obtain ⟨l1, l2, heq, hl1, hr0⟩ := find?_eq_some_split.mp hfind
  subst heq
  refine ⟨by simpa using hr0, ?_⟩
  intro r hr hrk
  rcases List.mem_append.mp hr with h1 | h2
  · exact absurd hrk (by simpa using hl1 r h1)
  · rcases List.mem_cons.mp h2 with heq2 | h2
    · rw [heq2]
      exact idLE_refl r0
    · have hp := (List.pairwise_append.mp hsorted).2.1
      exact (List.pairwise_cons.mp hp).1 r h2

/-- C5: the derived category list contains each nonempty normalized
key exactly once, skips records whose normalized category is empty,
and lists keys in order of each key's first-occurring record; when
the input is sorted ascending under the id comparator this equals
the order of each category's minimum-id record (each key's first
record is such a minimum, and consecutive keys' first records are in
comparator order). -/
theorem claim_C5_category_order (records : List ServiceRecord)
    (hsorted : records.Pairwise (fun a b => idLE a b = true)) :
    ((categories records).map CategoryEntry.key).Nodup
    ∧ (∀ k, k ∈ (categories records).map CategoryEntry.key ↔
        (k ≠ "" ∧ ∃ r ∈ records, normalizeCategory r.category = k))
    ∧ (categories records).Pairwise (fun a b =>
        records.findIdx (fun r => normalizeCategory r.category == a.key) <
        records.findIdx (fun r => normalizeCategory r.category == b.key))
    ∧ (categories records).Pairwise (fun a b => ∀ ra rb,
        records.find? (fun r => normalizeCategory r.category == a.key) = some ra →
        records.find? (fun r => normalizeCategory r.category == b.key) = some rb →
        idLE ra rb = true)
    ∧ (∀ c ∈ categories records, ∀ r0,
        records.find? (fun r => normalizeCategory r.category == c.key) = some r0 →
        normalizeCategory r0.category = c.key
        ∧ ∀ r ∈ records, normalizeCategory r.category = c.key → idLE r0 r = true) := by
  refine ⟨nodup_keys_buildCatsAux records [], ?_, pairwise_firstIdx_buildCatsAux records [],
    ?_, ?_⟩
  · intro k
    rw [show categories records = buildCatsAux records [] from rfl, mem_keys_buildCatsAux]
    simp
  · refine (pairwise_firstIdx_buildCatsAux records []).imp_of_mem ?_
    intro a b _ha _hb hlt ra rb hfa hfb
    obtain ⟨la1, la2, heqa, hla1, hpa⟩ := find?_eq_some_split.mp hfa
    obtain ⟨lb1, lb2, heqb, hlb1, hpb⟩ := find?_eq_some_split.mp hfb
    have hia : records.findIdx
        (fun r => normalizeCategory r.category == a.key) = la1.length := by
      rw [heqa]
      exact findIdx_of_split hla1 hpa
    have hib : records.findIdx
        (fun r => normalizeCategory r.category == b.key) = lb1.length := by
      rw [heqb]
      exact findIdx_of_split hlb1 hpb
    rw [hia, hib] at hlt
    have hbnda : la1.length < records.length := by
      rw [heqa]
      simp only [List.length_append, List.length_cons]
      omega
    have hbndb : lb1.length < records.length := by
      rw [heqb]
      simp only [List.length_append, List.length_cons]
      omega
    have hga : records.get ⟨la1.length, hbnda⟩ = ra := get_split_of_eq heqa hbnda
    have hgb : records.get ⟨lb1.length, hbndb⟩ = rb := get_split_of_eq heqb hbndb
    have hrel := List.pairwise_iff_get.mp hsorted ⟨la1.length, hbnda⟩ ⟨lb1.length, hbndb⟩ hlt
    rw [hga, hgb] at hrel
    exact hrel
  · intro c _hc r0 hfind
    exact first_match_min hsorted hfind

/-- First record of category B, then of category A, ids sorted. -/
def recB : ServiceRecord := ⟨.null, .str "a", .str "B", .null, .null, .null, .null, .null⟩

def recA : ServiceRecord := ⟨.null, .str "b", .str "A", .null, .null, .null, .null, .null⟩

/-- Witness for C5 at a concrete two-category catalog: keys come out
deduplicated and in first-appearance order. -/
theorem claim_C5_category_order_witness :
    ((categories [recB, recA]).map CategoryEntry.key).Nodup
    ∧ (categories [recB, recA]).Pairwise (fun a b =>
        [recB, recA].findIdx (fun r => normalizeCategory r.category == a.key) <
        [recB, recA].findIdx (fun r => normalizeCategory r.category == b.key)) :=
  ⟨(claim_C5_category_order [recB, recA] (by decide)).1,
   (claim_C5_category_order [recB, recA] (by decide)).2.2.1⟩

theorem localeCompareNum_nonpos_iff (a b : String) :
    localeCompareNum a b ≤ 0 ↔ (charListLt a.data b.data = true ∨ a = b) := by
  unfold localeCompareNum
  by_cases h : charListLt a.data b.data
  · rw [if_pos h]
    norm_num [h]
  · rw [if_neg h]
    by_cases he : a = b
    · rw [if_pos he]
      norm_num [he]
    · rw [if_neg he]
      norm_num [h, he]

/-- C9: the services-in-category list is a permutation of the records
whose normalized category equals the normalized selected key, and it
is pairwise sorted under the id comparator whenever that comparator
is transitive on the records at hand (the comparator is always
total); the comparator orders two records numerically when both ids
convert to finite numbers and lexicographically on the stringified
ids otherwise. -/
theorem claim_C9_services_in_category (services : List ServiceRecord)
    (selectedCategory : String)
    (hkey : normalizeCategory (.str selectedCategory) ≠ "")
    (htrans : ∀ x ∈ services, ∀ y ∈ services, ∀ z ∈ services,
        idLE x y = true → idLE y z = true → idLE x z = true) :
    (servicesInCategory services selectedCategory).Perm
      (services.filter (fun s =>
        normalizeCategory s.category == normalizeCategory (.str selectedCategory)))
    ∧ (servicesInCategory services selectedCategory).Pairwise (fun a b => idLE a b = true)
    ∧ (∀ a b qa qb, toNumber a.provider_service_id = .finite qa →
        toNumber b.provider_service_id = .finite qb →
        (idLE a b = true ↔ qa ≤ qb))
    ∧ (∀ a b, ((toNumber a.provider_service_id).isFinite = false
          ∨ (toNumber b.provider_service_id).isFinite = false) →
        (idLE a b = true ↔
          (charListLt (jsToString a.provider_service_id).data
              (jsToString b.provider_service_id).data = true
            ∨ jsToString a.provider_service_id = jsToString b.provider_service_id))) := by
  have hfilter : ∀ x ∈ services.filter (fun s =>
      normalizeCategory s.category == normalizeCategory (.str selectedCategory)), x ∈ services :=
    fun x hx => (List.mem_filter.mp hx).1
  refine ⟨?_, ?_, ?_, ?_⟩
  · unfold servicesInCategory
    rw [if_neg hkey]
    exact jsSort_perm _ _
  · unfold servicesInCategory
    rw [if_neg hkey]
    refine pairwise_jsSort ?_ ?_
    · intro x _hx y _hy
      exact idLE_total x y
    · intro x hx y hy z hz
      exact htrans x (hfilter x hx) y (hfilter y hy) z (hfilter z hz)
  · intro a b qa qb ha hb
    unfold idLE svcCompare
    rw [ha, hb]
    simp only [decide_eq_true_eq]
    constructor
    · intro h
      linarith
    · intro h
      linarith
  · intro a b h
    unfold idLE svcCompare
    cases ha : toNumber a.provider_service_id <;>
      cases hb : toNumber b.provider_service_id <;>
        first
        | (simp only [decide_eq_true_eq]
           exact localeCompareNum_nonpos_iff _ _)
        | (rw [ha, hb] at h
           simp [JSNum.isFinite] at h)

/-- Two records of the same category with string ids given in
reverse order. -/
def recY : ServiceRecord := ⟨.null, .str "b", .str "Cat", .null, .null, .null, .null, .null⟩

def recX : ServiceRecord := ⟨.null, .str "a", .str "Cat", .null, .null, .null, .null, .null⟩

/-- Witness for C9 at a concrete catalog: the list is a permutation
of the filtered records and comes out pairwise sorted. -/
theorem claim_C9_services_in_category_witness :
    (servicesInCategory [recY, recX] "Cat").Perm
      ([recY, recX].filter (fun s =>
        normalizeCategory s.category == normalizeCategory (.str "Cat")))
    ∧ (servicesInCategory [recY, recX] "Cat").Pairwise (fun a b => idLE a b = true) :=
  ⟨(claim_C9_services_in_category [recY, recX] "Cat" (by decide) (by decide)).1,
   (claim_C9_services_in_category [recY, recX] "Cat" (by decide) (by decide)).2.1⟩

end Upify
